import Mathlib

/-!
Verification development for `nhl_shots.py`, the matchup-scoped aggregation and
scoring pipeline of the NHL shots cron job.

Modelling conventions:
* Python floats are modelled by exact arithmetic: values that stay rational are
  `ℚ`; `math.sqrt` forces `ℝ`, so the standard deviation and the two composite
  scores live in `ℝ`.
* JSON field values that the code probes with `isinstance`/`is None` checks are
  modelled by `PyVal`; Python's `bool` is a subclass of `int`, so
  `isinstance(x, int)` is true for booleans, and `pyIsInt` mirrors that.
* `dict` lookups are modelled by association lists with shadowing on the left
  (`lookupD` returns the most recent binding), which reproduces Python dict
  lookup; the program only ever iterates dict keys through `sorted(...)`, so
  key order beyond membership is irrelevant.
* Fallible upstream HTTP calls are modelled as oracles returning `Except Unit`;
  `.error ()` stands for an uncaught fatal fetch exception.
-/

namespace NHLShots

/-- A Python value as probed by the script: `none` is `None` (or an absent
field, since `dict.get` returns `None` for those), and the remaining
constructors are the runtime types the code can meet in a numeric field. -/
inductive PyVal where
  | none
  | bool (b : Bool)
  | int (n : ℤ)
  | float (q : ℚ)
  | str (s : String)
deriving DecidableEq

/-- `isinstance(x, int)` in Python: true for `int` and (because `bool` is a
subclass of `int`) for `bool`. -/
def pyIsInt : PyVal → Bool
  | .bool _ => true
  | .int _ => true
  | _ => false

/-- The integer value of a `PyVal` that passed `pyIsInt` (Python's
`True`/`False` behave as `1`/`0` in arithmetic). -/
def pyToInt : PyVal → ℤ
  | .bool b => if b then 1 else 0
  | .int n => n
  | _ => 0

/-! ## Rolling statistics and scorer (`stddev`, lines 234-243 of `main`) -/

/-- `sN = sum(shotsN) / float(N_GAMES)` (line 234). -/
def meanShots (n : ℕ) (shots : List ℤ) : ℚ :=
  (shots.sum : ℚ) / (n : ℚ)

/-- `hitK = sum(1 for s in shotsN if s >= k) / float(N_GAMES)` (lines 235-236). -/
def hitRate (k : ℤ) (n : ℕ) (shots : List ℤ) : ℚ :=
  ((shots.countP (fun s => decide (k ≤ s)) : ℕ) : ℚ) / (n : ℚ)

/-- `stddev(vals)` (lines 63-66): population standard deviation, dividing by
`len(vals)`. -/
noncomputable def stddev (vals : List ℤ) : ℝ :=
  let m : ℝ := (vals.sum : ℝ) / (vals.length : ℝ)
  Real.sqrt ((vals.map (fun v : ℤ => ((v : ℝ) - m) ^ 2)).sum / (vals.length : ℝ))

/-- `adj_sog = sN * boost` (line 239). -/
def adjSog (n : ℕ) (shots : List ℤ) (boost : ℚ) : ℚ :=
  meanShots n shots * boost

/-- `score2 = adj_sog + 0.6 * hit2 - 0.15 * sdN` (line 242). -/
noncomputable def score2val (n : ℕ) (shots : List ℤ) (boost : ℚ) : ℝ :=
  ((adjSog n shots boost : ℚ) : ℝ) + (6 / 10) * ((hitRate 2 n shots : ℚ) : ℝ)
    - (15 / 100) * stddev shots

/-- `score3 = adj_sog + 0.6 * hit3 - 0.20 * sdN` (line 243). -/
noncomputable def score3val (n : ℕ) (shots : List ℤ) (boost : ℚ) : ℝ :=
  ((adjSog n shots boost : ℚ) : ℝ) + (6 / 10) * ((hitRate 3 n shots : ℚ) : ℝ)
    - (20 / 100) * stddev shots

/-- `boost = (opp_sa / LEAGUE_AVG_SA) if LEAGUE_AVG_SA > 0 else 1.0` (line 223). -/
def boostOf (oppSa baseline : ℚ) : ℚ :=
  if 0 < baseline then oppSa / baseline else 1

/-! ## Python `round` (banker's rounding at `d` decimal places)

`round(x, d)` on an exact value: scale by `10^d`, round half to even. The
rational version is executable; the real version is needed because the scores
contain a square root, and the two agree on rational inputs. -/

/-- `round(q, d)` for a rational value: round half to even at `d` decimals. -/
def pyRoundQ (d : ℕ) (q : ℚ) : ℚ :=
  ((if q * 10 ^ d - (⌊q * 10 ^ d⌋ : ℤ) < 1 / 2 then ⌊q * 10 ^ d⌋
    else if 1 / 2 < q * 10 ^ d - (⌊q * 10 ^ d⌋ : ℤ) then ⌊q * 10 ^ d⌋ + 1
    else if ⌊q * 10 ^ d⌋ % 2 = 0 then ⌊q * 10 ^ d⌋ else ⌊q * 10 ^ d⌋ + 1) : ℚ) / 10 ^ d

open Classical in
/-- `round(x, d)` for a real value: round half to even at `d` decimals. -/
noncomputable def pyRoundR (d : ℕ) (x : ℝ) : ℚ :=
  ((if x * 10 ^ d - (⌊x * 10 ^ d⌋ : ℤ) < 1 / 2 then ⌊x * 10 ^ d⌋
    else if 1 / 2 < x * 10 ^ d - (⌊x * 10 ^ d⌋ : ℤ) then ⌊x * 10 ^ d⌋ + 1
    else if ⌊x * 10 ^ d⌋ % 2 = 0 then ⌊x * 10 ^ d⌋ else ⌊x * 10 ^ d⌋ + 1) : ℚ) / 10 ^ d

/-! ## Score records (the dict appended to `all_rows`, lines 245-260)

Every numeric field is stored already rounded, exactly as the source builds
the dict: `round(..., 4)` on all statistics and `round(boost, 6)`. -/

structure Row where
  Player : String
  PlayerId : ℤ
  Team : String
  Opp : String
  Pos : String
  SN : ℚ
  Hit2 : ℚ
  Hit3 : ℚ
  OppSA : ℚ
  Boost : ℚ
  AdjSOG : ℚ
  Score2 : ℚ
  Score3 : ℚ
  Date : String
deriving DecidableEq

/-- Lines 234-260 of `main`: compute the per-player statistics and append the
dict of rounded values. -/
noncomputable def mkRow (name : String) (pid : ℤ) (team opp pos : String) (n : ℕ)
    (shots : List ℤ) (boost oppSa : ℚ) (date : String) : Row :=
  { Player := name
    PlayerId := pid
    Team := team
    Opp := opp
    Pos := pos
    SN := pyRoundQ 4 (meanShots n shots)
    Hit2 := pyRoundQ 4 (hitRate 2 n shots)
    Hit3 := pyRoundQ 4 (hitRate 3 n shots)
    OppSA := pyRoundQ 4 oppSa
    Boost := pyRoundQ 6 boost
    AdjSOG := pyRoundQ 4 (adjSog n shots boost)
    Score2 := pyRoundR 4 (score2val n shots boost)
    Score3 := pyRoundR 4 (score3val n shots boost)
    Date := date }

/-! ## Roster ranker (lines 263-306 of `main`)

`list.sort(key=..., reverse=True)` is a stable descending sort: an element
comes before another exactly when its key is larger, or the keys are equal and
it appeared earlier.  A stable sort is uniquely determined by that property,
and `List.insertionSort` with the relation "my key is at least yours" realises
it. -/

/-- The comparison used by `forwards.sort(key=lambda x: x["Score2"],
reverse=True)`: `a` may stay before `b` iff `b`'s stored score does not exceed
`a`'s. -/
def rowGe (a b : Row) : Prop := b.Score2 ≤ a.Score2

instance : DecidableRel rowGe := fun a b => inferInstanceAs (Decidable (b.Score2 ≤ a.Score2))

instance : IsTotal Row rowGe := ⟨fun a b => le_total b.Score2 a.Score2⟩

instance : IsTrans Row rowGe := ⟨fun _ _ _ h h' => le_trans h' h⟩

/-- The stable descending sort by the stored (rounded) `Score2` field. -/
def sortDesc (rows : List Row) : List Row := List.insertionSort rowGe rows

/-- `forwards = [r for r in team_rows if r["Pos"] == "F"]` (line 271). -/
def forwardsOf (team_rows : List Row) : List Row :=
  team_rows.filter (fun r => r.Pos == "F")

/-- `defense = [r for r in team_rows if r["Pos"] == "D"]` (line 272). -/
def defenseOf (team_rows : List Row) : List Row :=
  team_rows.filter (fun r => r.Pos == "D")

/-- `top_f = forwards[:4]` after the descending sort (lines 274, 277). -/
def topF (team_rows : List Row) : List Row := (sortDesc (forwardsOf team_rows)).take 4

/-- `top_d = defense[:1]` after the descending sort (lines 275, 278). -/
def topD (team_rows : List Row) : List Row := (sortDesc (defenseOf team_rows)).take 1

/-- Code-point lexicographic comparison, Python's string ordering. -/
def charListLe : List Char → List Char → Bool
  | [], _ => true
  | _ :: _, [] => false
  | c :: cs, d :: ds =>
    if c.toNat < d.toNat then true
    else if d.toNat < c.toNat then false
    else charListLe cs ds

/-- `a <= b` on strings by code points. -/
def strLe (a b : String) : Bool := charListLe a.toList b.toList

/-- Sorting on strings, as `sorted(...)` over team codes. -/
def sortStr (l : List String) : List String :=
  List.insertionSort (fun a b : String => strLe a b = true) l

/-- Lines 263-306: group `all_rows` by team (`sorted(set(...))`), rank each
group and concatenate `top_f ++ top_d` in output order. -/
def outputRows (all_rows : List Row) : List Row :=
  (sortStr ((all_rows.map (fun r => r.Team)).dedup)).flatMap (fun team =>
    let team_rows := all_rows.filter (fun r => r.Team == team)
    topF team_rows ++ topD team_rows)

/-! ## Recent-form extractor (`lastN_shots_from_game_log`, lines 129-156) -/

/-- One entry of the game log: the value of its `"shots"` field, and its
`"skaterStats"` field (`Option.none` when absent or not a dict; `some v` for a
dict whose `"shots"` value is `v`, with `PyVal.none` for an absent key). -/
structure GameEntry where
  shots : PyVal
  skaterStats : Option PyVal
deriving DecidableEq

/-- Lines 143-147: `s = g.get("shots")`; fall back to
`g["skaterStats"].get("shots")` only when `s is None` and the fallback is a
dict; accept the result only when `isinstance(s, int)`. -/
def extractShot (g : GameEntry) : Option ℤ :=
  let s : PyVal :=
    match g.shots, g.skaterStats with
    | .none, some v => v
    | sv, _ => sv
  if pyIsInt s then some (pyToInt s) else none

/-- The valid integer shot values of a game log, in log order. -/
def validShots (l : List GameEntry) : List ℤ := l.filterMap extractShot

/-- The collection loop of lines 141-151: append each valid value, stop as
soon as `n` values have been collected. -/
def collectShots (n : ℕ) : List GameEntry → List ℤ → List ℤ
  | [], acc => acc
  | g :: gs, acc =>
    let acc' := match extractShot g with
      | some v => acc ++ [v]
      | Option.none => acc
    if n ≤ acc'.length then acc' else collectShots n gs acc'

/-- The payload of the game-log endpoint: `Option.none` models a `"gameLog"`
field that is missing or not a list. -/
structure GameLogData where
  gameLog : Option (List GameEntry)
deriving DecidableEq

/-- `lastN_shots_from_game_log` (lines 129-156), applied to the decoded
payload: reject a missing/non-list/empty log, collect up to `n` valid values,
reject fewer than `n`, return `shots[:n]`. -/
def lastN_shots_from_game_log (d : GameLogData) (n : ℕ) : Option (List ℤ) :=
  match d.gameLog with
  | Option.none => none
  | some l =>
    if l = [] then none
    else
      let shots := collectShots n l []
      if shots.length < n then none else some (shots.take n)

/-! ## Opponent strength resolver (`club_shots_against_per_game`, lines 159-187) -/

/-- The payload of the club-stats endpoint: each skater contributes its
`"gamesPlayed"` field value and each goalie its `"shotsAgainst"` field value;
`Option.none` models a field that is present but not a list (`data.get`
defaults an absent field to `[]`, i.e. `some []`). -/
structure ClubStatsData where
  skaters : Option (List PyVal)
  goalies : Option (List PyVal)
deriving DecidableEq

/-- `gp_vals` (line 174): the genuinely-integer `gamesPlayed` values. -/
def gpVals (sk : List PyVal) : List ℤ := (sk.filter pyIsInt).map pyToInt

/-- `sa_vals` (line 182): the genuinely-integer `shotsAgainst` values. -/
def saVals (go : List PyVal) : List ℤ := (go.filter pyIsInt).map pyToInt

/-- Python `max` over a list, guarded non-empty at every use site. -/
def listMax : List ℤ → ℤ
  | [] => 0
  | x :: xs => xs.foldl max x

/-- `club_shots_against_per_game` (lines 159-187), applied to the decoded
payload. -/
def club_shots_against_per_game (d : ClubStatsData) : Option ℚ :=
  match d.skaters, d.goalies with
  | some sk, some go =>
    if sk = [] ∨ go = [] then none
    else if gpVals sk = [] then none
    else if listMax (gpVals sk) ≤ 0 then none
    else if saVals go = [] then none
    else some (((saVals go).sum : ℚ) / (listMax (gpVals sk) : ℚ))
  | _, _ => none

/-! ## Resilient fetcher (`get_json`, lines 45-60) -/

/-- One upstream HTTP response: status code, optional `Retry-After` header,
decoded body. -/
structure HttpResp (α : Type) where
  status : ℕ
  retryAfter : Option String
  body : α

/-- The outcome of `get_json`: a decoded payload, an exception from
`raise_for_status` (any 4xx/5xx other than 429), or the terminal
`RuntimeError(f"Failed after retries: {url}")`. -/
inductive FetchOut (α : Type) where
  | payload (a : α)
  | httpError (code : ℕ)
  | exhausted (url : String)
deriving DecidableEq

/-- The decimal value of a digits-only string. -/
def digitsVal (s : String) : ℕ :=
  s.toList.foldl (fun acc c => acc * 10 + (c.toNat - 48)) 0

/-- Line 52: `wait = float(retry_after) if (retry_after and
retry_after.isdigit()) else backoff`. -/
def hintWait (h : Option String) (backoff : ℚ) : ℚ :=
  match h with
  | some s => if s.length ≠ 0 ∧ s.toList.all Char.isDigit then (digitsVal s : ℚ) else backoff
  | Option.none => backoff

/-- The retry loop of `get_json` (lines 47-58): `i` is the index of the next
response, `fuel` the remaining attempts, `backoff` the current delay.  Returns
the outcome together with the list of delays slept. -/
def getJsonGo {α : Type} (url : String) (resp : ℕ → HttpResp α) :
    ℕ → ℕ → ℚ → FetchOut α × List ℚ
  | _, 0, _ => (.exhausted url, [])
  | i, fuel + 1, backoff =>
    let r := resp i
    if r.status = 429 then
      let wait := hintWait r.retryAfter backoff
      let rec_ : FetchOut α × List ℚ := getJsonGo url resp (i + 1) fuel (min (backoff * 2) 12)
      (rec_.1, wait :: rec_.2)
    else if 400 ≤ r.status ∧ r.status ≤ 599 then (.httpError r.status, [])
    else (.payload r.body, [])

/-- `get_json(url, max_retries=7)` (lines 45-60) over a deterministic stream of
upstream responses: backoff seeded at `0.6`, doubled and capped at `12`. -/
def get_json {α : Type} (url : String) (resp : ℕ → HttpResp α) : FetchOut α × List ℚ :=
  getJsonGo url resp 0 7 (6 / 10)

/-! ## Matchup resolver (`get_matchups_today`, lines 91-105) -/

/-- One game descriptor: the home and away `abbrev` values.  `Option.none`
models a missing team object or a missing `abbrev`; `some ""` an empty
abbreviation (falsy in Python, hence also skipped). -/
structure GameDesc where
  home : Option String
  away : Option String
deriving DecidableEq

/-- Dict update modelled by prepending: lookups see the newest binding first,
exactly as a Python dict assignment overwrites the visible value. -/
def updD (m : List (String × String)) (k v : String) : List (String × String) :=
  (k, v) :: m

/-- Python dict lookup on the association-list model. -/
def lookupD (m : List (String × String)) (k : String) : Option String :=
  (m.find? (fun p => p.1 == k)).map (fun p => p.2)

/-- One iteration of the loop in lines 98-103. -/
def matchStep (m : List (String × String)) (g : GameDesc) : List (String × String) :=
  match g.home, g.away with
  | some h, some a => if h ≠ "" ∧ a ≠ "" then updD (updD m h a) a h else m
  | _, _ => m

/-- `get_matchups_today` (lines 91-105), applied to the decoded list of games:
build the symmetric-by-intent mapping home→away, away→home, skipping entries
with a missing side. -/
def get_matchups_today (games : List GameDesc) : List (String × String) :=
  games.foldl matchStep []

/-- The (home, away) pairs that actually contribute entries. -/
def validPairs (games : List GameDesc) : List (String × String) :=
  games.filterMap (fun g =>
    match g.home, g.away with
    | some h, some a => if h ≠ "" ∧ a ≠ "" then some (h, a) else none
    | _, _ => none)

/-! ## Roster resolver (`roster_skaters`, lines 108-126) -/

/-- The roster payload: the `"forwards"` and `"defensemen"` groups, each entry
carrying its `"id"` field value and its composed display name (the name
composition of lines 115-118 is outside every claim and is carried opaquely). -/
structure RosterData where
  forwards : List (PyVal × String)
  defensemen : List (PyVal × String)
deriving DecidableEq

/-- `roster_skaters` (lines 108-126): forwards tagged `"F"` then defensemen
tagged `"D"`, keeping only entries whose id satisfies `isinstance(pid, int)`. -/
def roster_skaters (d : RosterData) : List (ℤ × String × String) :=
  (d.forwards.filterMap (fun e =>
    if pyIsInt e.1 then some (pyToInt e.1, e.2, "F") else none)) ++
  (d.defensemen.filterMap (fun e =>
    if pyIsInt e.1 then some (pyToInt e.1, e.2, "D") else none))

/-! ## Pipeline orchestrator (`main`, lines 193-313)

The four upstream endpoints are oracles; `.error ()` models a fetch whose
retries were exhausted (or a hard HTTP error), i.e. an uncaught exception. -/

structure Upstream where
  schedule : Except Unit (List GameDesc)
  clubStats : String → Except Unit ClubStatsData
  roster : String → Except Unit RosterData
  gameLog : ℤ → Except Unit GameLogData

/-- The per-player loop of lines 227-260: fetch the game log, skip (`continue`)
a player whose extraction is insufficient, otherwise append the score record. -/
noncomputable def playerLoop (glog : ℤ → Except Unit GameLogData) (n : ℕ) (team opp : String)
    (boost oppSa : ℚ) (date : String) :
    List (ℤ × String × String) → Except Unit (List Row)
  | [] => .ok []
  | (pid, name, pos) :: rest =>
    match glog pid with
    | .error e => .error e
    | .ok d =>
      match lastN_shots_from_game_log d n with
      | Option.none => playerLoop glog n team opp boost oppSa date rest
      | some shots =>
        match playerLoop glog n team opp boost oppSa date rest with
        | .error e => .error e
        | .ok rs => .ok (mkRow name pid team opp pos n shots boost oppSa date :: rs)

/-- Write-through of `opp_sa_cache[opp] = value` (line 220). -/
def updFn (cache : String → Option ℚ) (opp : String) (v : ℚ) : String → Option ℚ :=
  fun k => if k = opp then some v else cache k

/-- Lines 217-220 of `main`: consult `opp_sa_cache`, fetching (and storing the
result-or-baseline) only on a miss; the returned list records whether a fetch
happened. -/
def resolveCache (u : Upstream) (baseline : ℚ) (cache : String → Option ℚ)
    (opp : String) : Except Unit ((String → Option ℚ) × List String) :=
  match cache opp with
  | some _ => .ok (cache, [])
  | Option.none =>
    match u.clubStats opp with
    | .error e => .error e
    | .ok cs =>
      .ok (updFn cache opp ((club_shots_against_per_game cs).getD baseline), [opp])

/-- The per-team loop of lines 211-260, threading the opponent-strength cache
(`opp_sa_cache`).  Besides the collected rows it returns the list of opponent
codes for which `club_shots_against_per_game` was actually fetched, in order
(the instrumentation needed to state the caching claim). -/
noncomputable def teamLoop (u : Upstream) (n : ℕ) (baseline : ℚ) (date : String)
    (matchups : List (String × String)) :
    List String → (String → Option ℚ) → Except Unit (List Row × List String)
  | [], _ => .ok ([], [])
  | t :: ts, cache =>
    match lookupD matchups t with
    | Option.none => teamLoop u n baseline date matchups ts cache
    | some opp =>
      if opp = "" then teamLoop u n baseline date matchups ts cache
      else
        match resolveCache u baseline cache opp with
        | .error e => .error e
        | .ok (cache', fetched) =>
          match u.roster t with
          | .error e => .error e
          | .ok rd =>
            match playerLoop u.gameLog n t opp (boostOf ((cache' opp).getD baseline) baseline)
                ((cache' opp).getD baseline) date (roster_skaters rd) with
            | .error e => .error e
            | .ok rows =>
              match teamLoop u n baseline date matchups ts cache' with
              | .error e => .error e
              | .ok (rest, fetched') => .ok (rows ++ rest, fetched ++ fetched')

/-- `main` (lines 193-313): resolve matchups, return `[]` when there are no
games, otherwise run the per-team loop over the sorted team codes and rank.
The returned list is `output_rows`, the at-most-once delivery handed to the
sink; a `.error ()` run delivers nothing. -/
noncomputable def mainRun (u : Upstream) (n : ℕ) (baseline : ℚ) (date : String) :
    Except Unit (List Row) :=
  match u.schedule with
  | .error e => .error e
  | .ok games =>
    let matchups := get_matchups_today games
    if matchups.isEmpty then .ok []
    else
      match teamLoop u n baseline date matchups
          (sortStr ((matchups.map (fun p => p.1)).dedup)) (fun _ => none) with
      | .error e => .error e
      | .ok (all_rows, _) => .ok (outputRows all_rows)

/-! ## Auxiliary definitions used by the theorems -/

/-- The executable rational form of the population variance computed inside
`stddev`. -/
def varQ (vals : List ℤ) : ℚ :=
  (vals.map (fun v : ℤ => ((v : ℚ) - (vals.sum : ℚ) / (vals.length : ℚ)) ^ 2)).sum
    / (vals.length : ℚ)

/-- The 10-entry history of end-to-end scenario A in the spec. -/
def histScenarioA : List ℤ := [1, 2, 0, 3, 2, 1, 4, 2, 0, 3]

/-- How many valid integer shot values the game-log payload can provide. -/
def extractableCount (d : GameLogData) : ℕ :=
  match d.gameLog with
  | Option.none => 0
  | some l => (validShots l).length

/-- The spec's claimed "unavailable" conditions for the opponent-strength
resolver, following the spec's words: either collection empty (or not a
list), no valid integer games-played values, or team-games value `≤ 0`.
Written for comparison with `club_shots_against_per_game`. -/
def specUnavailable (d : ClubStatsData) : Bool :=
  match d.skaters, d.goalies with
  | Option.none, _ => true
  | _, Option.none => true
  | some sk, some go =>
    decide (sk = []) || decide (go = []) || decide (gpVals sk = [])
      || decide (listMax (gpVals sk) ≤ 0)

/-- Pairwise disjointness of the team codes of a list of (home, away) pairs:
no team appears in two different pairs. -/
def pairsDisjoint (ps : List (String × String)) : Prop :=
  ps.Pairwise (fun p q => p.1 ≠ q.1 ∧ p.1 ≠ q.2 ∧ p.2 ≠ q.1 ∧ p.2 ≠ q.2)

/-- All four upstream endpoints answer without a fatal fetch failure
(the decoded payloads themselves are arbitrary, including malformed ones). -/
def allOk (u : Upstream) : Prop :=
  (∃ s, u.schedule = .ok s) ∧ (∀ t, ∃ d, u.clubStats t = .ok d) ∧
  (∀ t, ∃ r, u.roster t = .ok r) ∧ (∀ p, ∃ g, u.gameLog p = .ok g)

/-! Concrete inputs used by counterexamples and witnesses. -/

/-- A history of ten games at 3 shots each (population stddev 0). -/
def histAll3 : List ℤ := [3, 3, 3, 3, 3, 3, 3, 3, 3, 3]

/-- A history of ten games at 2 shots each (population stddev 0). -/
def histAll2 : List ℤ := [2, 2, 2, 2, 2, 2, 2, 2, 2, 2]

/-- A tiny boost factor, realizable as `(7/25000) / 28` (a club conceding 7
shots over 25000 games), separating exact scores by less than `10 ^ (-4)`. -/
def boostCx : ℚ := 1 / 100000

/-- The score record of the all-3s forward under `boostCx`. -/
noncomputable def rowA : Row := mkRow "A" 1 "T" "O" "F" 10 histAll3 boostCx (7 / 25000) "d"

/-- The score record of the all-2s forward under `boostCx`. -/
noncomputable def rowB : Row := mkRow "B" 2 "T" "O" "F" 10 histAll2 boostCx (7 / 25000) "d"

/-- Club-stats payload with a valid skater games-played value and a goalie
whose `shotsAgainst` is `null`. -/
def cexClub : ClubStatsData := ⟨some [.int 5], some [.none]⟩

/-- A response stream whose first answer is a 429 carrying the explicit (but
not digits-only) retry hint `"1.5"`. -/
def respHint : ℕ → HttpResp Unit := fun i =>
  if i = 0 then ⟨429, some "1.5", ()⟩ else ⟨200, Option.none, ()⟩

/-- A response stream that is always rate-limited, with no retry hint. -/
def respAll429 : ℕ → HttpResp Unit := fun _ => ⟨429, Option.none, ()⟩

/-- Two game descriptors sharing the home team "A". -/
def gamesDup : List GameDesc := [⟨some "A", some "B"⟩, ⟨some "A", some "C"⟩]

/-- A single well-formed game descriptor. -/
def gamesOne : List GameDesc := [⟨some "NJD", some "SEA"⟩]

/-- A game-log payload with two valid entries separated by a null entry. -/
def logSample : GameLogData :=
  ⟨some [⟨.int 1, Option.none⟩, ⟨.none, Option.none⟩, ⟨.int 2, Option.none⟩]⟩

/-- An upstream in which every fetch succeeds: one game T vs O, team T has
forward P (id 1) with a sufficient two-game log and forward Q (id 2) with an
insufficient one-game log. -/
def uGood : Upstream :=
  { schedule := .ok [⟨some "T", some "O"⟩]
    clubStats := fun _ => .ok ⟨some [], some []⟩
    roster := fun t =>
      if t = "T" then .ok ⟨[(.int 1, "P"), (.int 2, "Q")], []⟩ else .ok ⟨[], []⟩
    gameLog := fun p =>
      if p = 1 then .ok ⟨some [⟨.int 2, Option.none⟩, ⟨.int 3, Option.none⟩]⟩
      else .ok ⟨some [⟨.int 1, Option.none⟩]⟩ }

/-- The same upstream except that player Q's game-log fetch exhausts its
retries, after team O and player P have already been processed. -/
def uBad : Upstream :=
  { schedule := uGood.schedule
    clubStats := uGood.clubStats
    roster := uGood.roster
    gameLog := fun p => if p = 1 then uGood.gameLog 1 else .error () }

/-- An upstream for the cache witness: teams A and B share opponent C. -/
def uShared : Upstream :=
  { schedule := .ok [⟨some "A", some "C"⟩, ⟨some "C", some "B"⟩]
    clubStats := fun _ => .ok ⟨some [.int 1], some [.int 30]⟩
    roster := fun _ => .ok ⟨[], []⟩
    gameLog := fun _ => .ok ⟨Option.none⟩ }

/-! # Theorems -/

/-! ## Helper lemmas -/

/-- On a rational input the real-valued rounding agrees with the executable
rational one. -/
theorem pyRoundR_ratCast (d : ℕ) (q : ℚ) : pyRoundR d ((q : ℚ) : ℝ) = pyRoundQ d q := by
  have hs : ((q : ℝ) * 10 ^ d) = ((q * 10 ^ d : ℚ) : ℝ) := by push_cast; ring
  have hfl : ⌊(q : ℝ) * 10 ^ d⌋ = ⌊q * 10 ^ d⌋ := by rw [hs, Rat.floor_cast]
  have hsub : (q : ℝ) * 10 ^ d - ((⌊q * 10 ^ d⌋ : ℤ) : ℝ)
      = ((q * 10 ^ d - (⌊q * 10 ^ d⌋ : ℤ) : ℚ) : ℝ) := by
    push_cast; ring
  have hhalf : (1 / 2 : ℝ) = ((1 / 2 : ℚ) : ℝ) := by norm_num
  have hc1 : ((q : ℝ) * 10 ^ d - ((⌊q * 10 ^ d⌋ : ℤ) : ℝ) < 1 / 2)
      ↔ (q * 10 ^ d - (⌊q * 10 ^ d⌋ : ℤ) < 1 / 2) := by
    rw [hsub, hhalf, Rat.cast_lt]
  have hc2 : ((1 : ℝ) / 2 < (q : ℝ) * 10 ^ d - ((⌊q * 10 ^ d⌋ : ℤ) : ℝ))
      ↔ ((1 : ℚ) / 2 < q * 10 ^ d - (⌊q * 10 ^ d⌋ : ℤ)) := by
    rw [hsub, hhalf, Rat.cast_lt]
  unfold pyRoundR pyRoundQ
  rw [hfl]
  rw [if_congr hc1 rfl (if_congr hc2 rfl rfl)]

/-- Casting a rational sum of squared deviations to the reals. -/
theorem sumSq_cast (l : List ℤ) (m : ℚ) :
    (((l.map (fun v : ℤ => ((v : ℚ) - m) ^ 2)).sum : ℚ) : ℝ)
      = (l.map (fun v : ℤ => ((v : ℝ) - (m : ℝ)) ^ 2)).sum := by
  induction l with
  | nil => simp
  | cons x xs ih =>
    rw [List.map_cons, List.map_cons, List.sum_cons, List.sum_cons, Rat.cast_add, ih]
    norm_num

/-- `stddev` is the square root of the executable rational variance. -/
theorem stddev_eq_sqrt_varQ (vals : List ℤ) :
    stddev vals = Real.sqrt ((varQ vals : ℚ) : ℝ) := by
  simp only [stddev, varQ]
  congr 1
  rw [Rat.cast_div, sumSq_cast]
  have hm : (((vals.sum : ℚ) / (vals.length : ℚ) : ℚ) : ℝ)
      = ((vals.sum : ℤ) : ℝ) / ((vals.length : ℕ) : ℝ) := by
    rw [Rat.cast_div, Rat.cast_intCast, Rat.cast_natCast]
  rw [hm, Rat.cast_natCast]

/-- Bounds on the standard deviation of scenario A's history:
`1.2489 < stddev < 1.2490`. -/
theorem stddev_scenarioA_bounds :
    (12489 / 10000 : ℝ) < stddev histScenarioA ∧ stddev histScenarioA < 1249 / 1000 := by
  have hv : varQ histScenarioA = 39 / 25 := by norm_num [varQ, histScenarioA]
  have h : stddev histScenarioA = Real.sqrt ((39 : ℝ) / 25) := by
    rw [stddev_eq_sqrt_varQ, hv]
    norm_num
  rw [h]
  constructor
  · exact (Real.lt_sqrt (by norm_num)).2 (by norm_num)
  · exact (Real.sqrt_lt' (by norm_num)).2 (by norm_num)

/-! ## C1 — rolling statistics and scorer -/

/-- C1 counterexample: for the scenario history `[1,2,0,3,2,1,4,2,0,3]` the
scorer computes `hitRate3 = count(v ≥ 3)/10 = 3/10 = 0.3`, not the `0.2`
claimed by the spec's scenario A (three games — 3, 4 and 3 shots — reach the
threshold). -/
theorem c1_counterexample :
    hitRate 3 10 histScenarioA = 3 / 10 ∧ (3 / 10 : ℚ) ≠ 2 / 10 := by
  constructor
  · norm_num [hitRate, histScenarioA]
  · norm_num

/-- C1 (amended): the scorer computes `mean`, `hitRateK`, population `stddev`,
`adjustedMean = mean * boost`, `score2 = adjustedMean + 0.6*hitRate2 -
0.15*stddev` and `score3 = adjustedMean + 0.6*hitRate3 - 0.20*stddev`; on the
scenario-A history with boost 1 this yields `mean = 1.8`, `hitRate2 = 0.6`,
`hitRate3 = 0.3` (not 0.2), `stddev ≈ 1.249`, `score2 ≈ 1.973` and
`score3 ≈ 1.730` (not 1.670). -/
theorem c1_scorer_amended :
    (∀ n shots boost, score2val n shots boost
        = ((adjSog n shots boost : ℚ) : ℝ) + (6 / 10) * ((hitRate 2 n shots : ℚ) : ℝ)
          - (15 / 100) * stddev shots) ∧
    (∀ n shots boost, score3val n shots boost
        = ((adjSog n shots boost : ℚ) : ℝ) + (6 / 10) * ((hitRate 3 n shots : ℚ) : ℝ)
          - (20 / 100) * stddev shots) ∧
    (∀ n shots boost, adjSog n shots boost = meanShots n shots * boost) ∧
    meanShots 10 histScenarioA = 9 / 5 ∧
    hitRate 2 10 histScenarioA = 3 / 5 ∧
    hitRate 3 10 histScenarioA = 3 / 10 ∧
    boostOf 28 28 = 1 ∧
    adjSog 10 histScenarioA 1 = 9 / 5 ∧
    |stddev histScenarioA - 1249 / 1000| < 1 / 1000 ∧
    |score2val 10 histScenarioA 1 - 1973 / 1000| < 1 / 1000 ∧
    |score3val 10 histScenarioA 1 - 1730 / 1000| < 1 / 1000 := by
  have hsd := stddev_scenarioA_bounds
  have hadj : adjSog 10 histScenarioA 1 = 9 / 5 := by
    norm_num [adjSog, meanShots, histScenarioA]
  have hh2 : hitRate 2 10 histScenarioA = 3 / 5 := by norm_num [hitRate, histScenarioA]
  have hh3 : hitRate 3 10 histScenarioA = 3 / 10 := by norm_num [hitRate, histScenarioA]
  refine ⟨fun _ _ _ => rfl, fun _ _ _ => rfl, fun _ _ _ => rfl,
    by norm_num [meanShots, histScenarioA], hh2, hh3, by norm_num [boostOf], hadj, ?_, ?_, ?_⟩
  · rw [abs_sub_lt_iff]
    constructor <;> linarith [hsd.1, hsd.2]
  · unfold score2val
    rw [hadj, hh2]
    have c1 : ((9 / 5 : ℚ) : ℝ) = 9 / 5 := by norm_num
    have c2 : ((3 / 5 : ℚ) : ℝ) = 3 / 5 := by norm_num
    rw [c1, c2, abs_sub_lt_iff]
    constructor <;> linarith [hsd.1, hsd.2]
  · unfold score3val
    rw [hadj, hh3]
    have c1 : ((9 / 5 : ℚ) : ℝ) = 9 / 5 := by norm_num
    have c3 : ((3 / 10 : ℚ) : ℝ) = 3 / 10 := by norm_num
    rw [c1, c3, abs_sub_lt_iff]
    constructor <;> linarith [hsd.1, hsd.2]

/-! ## C2 — rounding happens at record creation, the ranker compares rounded scores -/

/-- With zero dispersion the composite score collapses to a rational value. -/
theorem score2val_sd_zero (n : ℕ) (shots : List ℤ) (b : ℚ) (h : stddev shots = 0) :
    score2val n shots b
      = ((adjSog n shots b + (6 / 10) * hitRate 2 n shots : ℚ) : ℝ) := by
  unfold score2val
  rw [h]
  push_cast
  ring

/-- A constant history has population standard deviation zero (all-3s). -/
theorem stddev_histAll3 : stddev histAll3 = 0 := by
  have hv : varQ histAll3 = 0 := by norm_num [varQ, histAll3]
  rw [stddev_eq_sqrt_varQ, hv]
  simp

/-- A constant history has population standard deviation zero (all-2s). -/
theorem stddev_histAll2 : stddev histAll2 = 0 := by
  have hv : varQ histAll2 = 0 := by norm_num [varQ, histAll2]
  rw [stddev_eq_sqrt_varQ, hv]
  simp

/-- The exact score of the all-3s forward. -/
theorem score2val_rowA :
    score2val 10 histAll3 boostCx = ((60003 / 100000 : ℚ) : ℝ) := by
  rw [score2val_sd_zero 10 histAll3 boostCx stddev_histAll3]
  norm_num [adjSog, meanShots, hitRate, histAll3, boostCx]

/-- The exact score of the all-2s forward. -/
theorem score2val_rowB :
    score2val 10 histAll2 boostCx = ((60002 / 100000 : ℚ) : ℝ) := by
  rw [score2val_sd_zero 10 histAll2 boostCx stddev_histAll2]
  norm_num [adjSog, meanShots, hitRate, histAll2, boostCx]

/-- The stored (rounded) scores of both forwards coincide at `0.6`. -/
theorem rowA_Score2 : rowA.Score2 = 3 / 5 := by
  show pyRoundR 4 (score2val 10 histAll3 boostCx) = 3 / 5
  rw [score2val_rowA, pyRoundR_ratCast]
  norm_num [pyRoundQ]

theorem rowB_Score2 : rowB.Score2 = 3 / 5 := by
  show pyRoundR 4 (score2val 10 histAll2 boostCx) = 3 / 5
  rw [score2val_rowB, pyRoundR_ratCast]
  norm_num [pyRoundQ]

/-- C2 counterexample: two forwards whose exact `score2` values differ (A's is
strictly larger) are stored with identical rounded `Score2 = 0.6`; the ranker,
fed `[B, A]`, keeps that order because it compares the stored rounded values
(a sort on the exact values would have produced `[A, B]`), and the stored
field differs from the exact score — so rounding is applied before the
ranking, not only at the sink boundary. -/
theorem c2_counterexample :
    score2val 10 histAll2 boostCx < score2val 10 histAll3 boostCx ∧
    rowA.Score2 = rowB.Score2 ∧
    topF [rowB, rowA] = [rowB, rowA] ∧
    ((rowA.Score2 : ℚ) : ℝ) ≠ score2val 10 histAll3 boostCx := by
  have hA := rowA_Score2
  have hB := rowB_Score2
  refine ⟨?_, hA.trans hB.symm, ?_, ?_⟩
  · rw [score2val_rowA, score2val_rowB, Rat.cast_lt]
    norm_num
  · have hfwd : forwardsOf [rowB, rowA] = [rowB, rowA] := rfl
    have hsort : sortDesc [rowB, rowA] = [rowB, rowA] := by
      unfold sortDesc
      simp only [List.insertionSort, List.orderedInsert_nil, List.orderedInsert]
      rw [if_pos]
      show rowA.Score2 ≤ rowB.Score2
      rw [hA, hB]
    unfold topF
    rw [hfwd, hsort]
    rfl
  · rw [hA, score2val_rowA, Ne, Rat.cast_inj]
    norm_num

/-- C2 (amended): every numeric field of a score record is rounded when the
record is created (statistics to 4 decimals, boost to 6), and the ranker's
descending sort orders and permutes by the stored, already-rounded, `Score2`
field. -/
theorem c2_rounding_amended :
    (∀ name pid team opp pos n shots boost oppSa date,
      (mkRow name pid team opp pos n shots boost oppSa date).Score2
          = pyRoundR 4 (score2val n shots boost) ∧
      (mkRow name pid team opp pos n shots boost oppSa date).Score3
          = pyRoundR 4 (score3val n shots boost) ∧
      (mkRow name pid team opp pos n shots boost oppSa date).SN
          = pyRoundQ 4 (meanShots n shots) ∧
      (mkRow name pid team opp pos n shots boost oppSa date).Boost = pyRoundQ 6 boost) ∧
    (∀ rows, List.Sorted rowGe (sortDesc rows)) ∧
    (∀ rows, List.Perm (sortDesc rows) rows) :=
  ⟨fun _ _ _ _ _ _ _ _ _ _ => ⟨rfl, rfl, rfl, rfl⟩,
    fun rows => List.sorted_insertionSort rowGe rows,
    fun rows => List.perm_insertionSort rowGe rows⟩

/-! ## C6 — ranker bounds, sorting and stability -/

/-- Inserting preserves the sequence of records at any fixed score: the
stability kernel of the insertion sort. -/
theorem filter_scoreEq_orderedInsert (x : Row) (l : List Row) (q : ℚ) :
    (List.orderedInsert rowGe x l).filter (fun r => r.Score2 == q)
      = (x :: l).filter (fun r => r.Score2 == q) := by
  induction l with
  | nil => rfl
  | cons y ys ih =>
    by_cases hr : rowGe x y
    · rw [List.orderedInsert, if_pos hr]
    · rw [List.orderedInsert, if_neg hr]
      have hlt : x.Score2 < y.Score2 := lt_of_not_le hr
      by_cases hq : x.Score2 = q
      · have hy : (y.Score2 == q) = false := by
          apply beq_false_of_ne
          rw [← hq]
          exact ne_of_gt hlt
        simp [List.filter_cons, hy, ih, hq]
      · by_cases hyq : y.Score2 = q
        · have hx : (x.Score2 == q) = false := beq_false_of_ne hq
          simp [List.filter_cons, hx, ih, hyq]
        · have hx : (x.Score2 == q) = false := beq_false_of_ne hq
          have hy : (y.Score2 == q) = false := beq_false_of_ne hyq
          simp [List.filter_cons, hx, hy, ih]

/-- Stability of the ranker's sort: at every score value the sorted list
preserves the original relative order of the records having that score. -/
theorem filter_scoreEq_sortDesc (l : List Row) (q : ℚ) :
    (sortDesc l).filter (fun r => r.Score2 == q) = l.filter (fun r => r.Score2 == q) := by
  induction l with
  | nil => rfl
  | cons x xs ih =>
    unfold sortDesc at ih ⊢
    simp only [List.insertionSort]
    rw [filter_scoreEq_orderedInsert]
    simp only [List.filter_cons]
    rw [ih]

/-- C6: the ranker returns exactly `min 4 #forwards` forwards and
`min 1 #defensemen` defensemen (never more than supplied, never padded), each
group sorted descending by stored `Score2` via a permutation of the input
group, with ties left in original iteration order (stability). -/
theorem c6_ranker (rows : List Row) :
    (topF rows).length = min 4 (forwardsOf rows).length ∧
    (topD rows).length = min 1 (defenseOf rows).length ∧
    (forwardsOf rows).length = rows.countP (fun r => r.Pos == "F") ∧
    (defenseOf rows).length = rows.countP (fun r => r.Pos == "D") ∧
    List.Sorted rowGe (sortDesc (forwardsOf rows)) ∧
    List.Sorted rowGe (sortDesc (defenseOf rows)) ∧
    List.Perm (sortDesc (forwardsOf rows)) (forwardsOf rows) ∧
    List.Perm (sortDesc (defenseOf rows)) (defenseOf rows) ∧
    (∀ q, (sortDesc (forwardsOf rows)).filter (fun r => r.Score2 == q)
        = (forwardsOf rows).filter (fun r => r.Score2 == q)) ∧
    (∀ q, (sortDesc (defenseOf rows)).filter (fun r => r.Score2 == q)
        = (defenseOf rows).filter (fun r => r.Score2 == q)) := by
  refine ⟨?_, ?_, ?_, ?_, List.sorted_insertionSort _ _, List.sorted_insertionSort _ _,
    List.perm_insertionSort _ _, List.perm_insertionSort _ _,
    fun q => filter_scoreEq_sortDesc _ q, fun q => filter_scoreEq_sortDesc _ q⟩
  · unfold topF sortDesc
    rw [List.length_take, (List.perm_insertionSort rowGe _).length_eq]
  · unfold topD sortDesc
    rw [List.length_take, (List.perm_insertionSort rowGe _).length_eq]
  · exact (List.countP_eq_length_filter _ _).symm
  · exact (List.countP_eq_length_filter _ _).symm

/-! ## C3 — recent-form extractor -/

/-- The collection loop of lines 141-151 gathers exactly the first `n` valid
values of the log. -/
theorem collectShots_eq (n : ℕ) :
    ∀ (l : List GameEntry) (acc : List ℤ), acc.length < n →
      collectShots n l acc = (acc ++ validShots l).take n := by
  intro l
  induction l with
  | nil =>
    intro acc h
    unfold collectShots validShots
    simp only [List.filterMap_nil, List.append_nil]
    rw [List.take_of_length_le (le_of_lt h)]
  | cons g gs ih =>
    intro acc h
    unfold collectShots
    cases hx : extractShot g with
    | none =>
      simp only [hx]
      rw [if_neg (by omega : ¬ n ≤ acc.length)]
      rw [ih acc h]
      simp [validShots, List.filterMap_cons, hx]
    | some v =>
      simp only [hx]
      by_cases hn : n ≤ (acc ++ [v]).length
      · rw [if_pos hn]
        have hlen : n = acc.length + 1 := by
          simp only [List.length_append, List.length_cons, List.length_nil] at hn
          omega
        have hsplit : acc ++ validShots (g :: gs) = (acc ++ [v]) ++ validShots gs := by
          simp [validShots, List.filterMap_cons, hx]
        have hlen2 : n = (acc ++ [v]).length := by
          simp only [List.length_append, List.length_cons, List.length_nil]
          omega
        rw [hsplit, hlen2, List.take_left]
      · rw [if_neg hn]
        have h' : (acc ++ [v]).length < n := by
          simp only [List.length_append, List.length_cons, List.length_nil] at hn ⊢
          omega
        rw [ih _ h']
        simp [validShots, List.filterMap_cons, hx]

/-- C3: the extractor returns either the first `W` valid integer shot values
of the log, in log (most-recent-first) order, stopping once `W` are found, or
`None` exactly when fewer than `W` valid values can be extracted; a null
shots value with no usable fallback contributes nothing (never a zero); and
the player loop silently skips an insufficient player, leaving the processing
of every other player unchanged. -/
theorem c3_extractor (d : GameLogData) (n : ℕ) (hn : 1 ≤ n) :
    (lastN_shots_from_game_log d n = none ↔ extractableCount d < n) ∧
    (∀ l, d.gameLog = some l → n ≤ (validShots l).length →
      lastN_shots_from_game_log d n = some ((validShots l).take n)) ∧
    (∀ xs, lastN_shots_from_game_log d n = some xs → xs.length = n) ∧
    extractShot ⟨.none, Option.none⟩ = none ∧
    extractShot ⟨.none, some .none⟩ = none ∧
    (∀ glog team opp boost oppSa date pre post pid name pos gd,
      glog pid = Except.ok gd → lastN_shots_from_game_log gd n = none →
      playerLoop glog n team opp boost oppSa date (pre ++ (pid, name, pos) :: post)
        = playerLoop glog n team opp boost oppSa date (pre ++ post)) := by
  have key : ∀ l : List GameEntry, l ≠ [] →
      lastN_shots_from_game_log ⟨some l⟩ n
        = if (validShots l).length < n then none else some ((validShots l).take n) := by
    intro l hl
    have hcoll : collectShots n l [] = (validShots l).take n := by
      have h0 : ([] : List ℤ).length < n := by simpa using hn
      simpa using collectShots_eq n l [] h0
    unfold lastN_shots_from_game_log
    simp only [hl, if_false, hcoll]
    by_cases hlen : (validShots l).length < n
    · rw [if_pos, if_pos hlen]
      rw [List.length_take]
      omega
    · rw [if_neg, if_neg hlen, List.take_take, min_self]
      rw [List.length_take]
      omega
  refine ⟨?_, ?_, ?_, rfl, rfl, ?_⟩
  · cases hgl : d.gameLog with
    | none =>
      unfold lastN_shots_from_game_log extractableCount
      rw [hgl]
      simp
      omega
    | some l =>
      have hd : d = ⟨some l⟩ := by cases d; simp_all
      subst hd
      by_cases hl : l = []
      · subst hl
        unfold lastN_shots_from_game_log extractableCount
        simp [validShots]
        omega
      · rw [key l hl]
        unfold extractableCount
        by_cases hlen : (validShots l).length < n
        · simp [hlen]
        · simp [hlen]
  · intro l hgl hge
    have hd : d = ⟨some l⟩ := by cases d; simp_all
    subst hd
    have hl : l ≠ [] := by
      intro h
      subst h
      simp [validShots] at hge
      omega
    rw [key l hl, if_neg (by omega)]
  · intro xs hxs
    cases hgl : d.gameLog with
    | none =>
      unfold lastN_shots_from_game_log at hxs
      rw [hgl] at hxs
      exact absurd hxs (by simp)
    | some l =>
      have hd : d = ⟨some l⟩ := by cases d; simp_all
      subst hd
      by_cases hl : l = []
      · subst hl
        unfold lastN_shots_from_game_log at hxs
        simp at hxs
      · rw [key l hl] at hxs
        by_cases hlen : (validShots l).length < n
        · rw [if_pos hlen] at hxs
          exact absurd hxs (by simp)
        · rw [if_neg hlen] at hxs
          have := Option.some_injective _ hxs
          rw [← this, List.length_take]
          omega
  · intro glog team opp boost oppSa date pre post pid name pos gd hok hnone
    induction pre with
    | nil =>
      simp only [List.nil_append, playerLoop, hok, hnone]
    | cons e pre ih =>
      obtain ⟨pid', name', pos'⟩ := e
      simp only [List.cons_append, playerLoop]
      cases hg : glog pid' with
      | error err => rfl
      | ok d' =>
        cases hl' : lastN_shots_from_game_log d' n with
        | none => simp only [List.append_eq, hl', ih]
        | some shots => simp only [List.append_eq, hl', ih]

/-- Witness for C3: on a concrete three-entry log (valid, null, valid) with
window 2, the extractor returns the two valid values in order. -/
theorem c3_extractor_witness :
    lastN_shots_from_game_log logSample 2 = some [1, 2] := by
  have h := (c3_extractor logSample 2 (by norm_num)).2.1
    [⟨.int 1, Option.none⟩, ⟨.none, Option.none⟩, ⟨.int 2, Option.none⟩] rfl (by decide)
  have e : (validShots
      [⟨.int 1, Option.none⟩, ⟨.none, Option.none⟩, ⟨.int 2, Option.none⟩]).take 2
      = [1, 2] := by decide
  rw [e] at h
  exact h

/-! ## C4 — opponent strength resolver -/

/-- C4 counterexample: a payload with a non-empty skater list carrying a valid
positive games-played and a non-empty goalie list — none of the three claimed
"unavailable" conditions — still yields `None`, because its only goalie's
`shotsAgainst` is null, a fourth condition the claim's "exactly when" misses. -/
theorem c4_counterexample :
    club_shots_against_per_game cexClub = none ∧ specUnavailable cexClub = false := by
  constructor
  · decide
  · decide

/-- C4 (amended): the resolver returns `None` exactly when a collection is
missing/empty, no valid integer games-played value exists, the team-games
value is `≤ 0`, **or no valid integer shots-against value exists**; any
returned value is `sum(goalie shots-against) / max(skater games-played)`; and
the caller's baseline substitution makes the boost exactly 1. -/
theorem c4_resolver_amended (d : ClubStatsData) :
    (club_shots_against_per_game d = none ↔
      (specUnavailable d = true ∨ ∃ go, d.goalies = some go ∧ saVals go = [])) ∧
    (∀ q, club_shots_against_per_game d = some q →
      ∃ sk go, d.skaters = some sk ∧ d.goalies = some go ∧
        q = ((saVals go).sum : ℚ) / (listMax (gpVals sk) : ℚ)) ∧
    (∀ baseline : ℚ, boostOf ((Option.none : Option ℚ).getD baseline) baseline = 1) := by
  obtain ⟨osk, ogo⟩ := d
  refine ⟨?_, ?_, ?_⟩
  · cases osk with
    | none => simp [club_shots_against_per_game, specUnavailable]
    | some sk =>
      cases ogo with
      | none => simp [club_shots_against_per_game, specUnavailable]
      | some go =>
        unfold club_shots_against_per_game specUnavailable
        dsimp only
        split_ifs with h1 h2 h3 h4
        · rcases h1 with h | h <;> simp [h]
        · simp [h2]
        · simp [h3]
        · simp [h4]
        · have hsk : ¬ sk = [] := fun h => h1 (Or.inl h)
          have hgo : ¬ go = [] := fun h => h1 (Or.inr h)
          simp [hsk, hgo, h2, h3, h4]
  · intro q hq
    cases osk with
    | none => simp [club_shots_against_per_game] at hq
    | some sk =>
      cases ogo with
      | none => simp [club_shots_against_per_game] at hq
      | some go =>
        unfold club_shots_against_per_game at hq
        dsimp only at hq
        split_ifs at hq
        exact ⟨sk, go, rfl, rfl, (Option.some_injective _ hq).symm⟩
  · intro baseline
    unfold boostOf
    simp only [Option.getD_none]
    split_ifs with h
    · exact div_self (ne_of_gt h)
    · rfl

/-- Witness for C4's amended theorem: the caller's baseline substitution at
the default baseline 28 yields a boost of exactly 1. -/
theorem c4_resolver_amended_witness :
    boostOf ((Option.none : Option ℚ).getD 28) 28 = 1 :=
  (c4_resolver_amended cexClub).2.2 28

/-! ## C5 — resilient fetcher -/

/-- One step of the capped doubling backoff, in closed form. -/
theorem min_backoff_step (b : ℚ) (k : ℕ) :
    min (min (b * 2) 12 * 2 ^ k) 12 = min (b * 2 ^ (k + 1)) 12 := by
  rcases le_or_lt (b * 2) 12 with h | h
  · rw [min_eq_left h]
    ring_nf
  · have hk : (1 : ℚ) ≤ 2 ^ k := one_le_pow₀ (by norm_num)
    have h12a : (12 : ℚ) ≤ 12 * 2 ^ k := le_mul_of_one_le_right (by norm_num) hk
    have hmul : 12 * 2 ^ k ≤ (b * 2) * 2 ^ k :=
      mul_le_mul_of_nonneg_right h.le (by positivity)
    have hring : (b * 2) * 2 ^ k = b * 2 ^ (k + 1) := by ring
    have h12b : (12 : ℚ) ≤ b * 2 ^ (k + 1) := by linarith [hring ▸ hmul]
    rw [min_eq_right h.le, min_eq_right h12a, min_eq_right h12b]

/-- When every response is rate-limited, the fetcher sleeps once per attempt
(retry hint if digits-only, else backoff `min(b·2^k, 12)`) and ends exhausted,
naming the resource. -/
theorem getJsonGo_all429 {α : Type} (url : String) (resp : ℕ → HttpResp α) :
    ∀ (fuel i : ℕ) (b : ℚ), b ≤ 12 →
      (∀ k, k < fuel → (resp (i + k)).status = 429) →
      getJsonGo url resp i fuel b
        = (.exhausted url,
           (List.range fuel).map
             (fun k => hintWait (resp (i + k)).retryAfter (min (b * 2 ^ k) 12))) := by
  intro fuel
  induction fuel with
  | zero =>
    intro i b hb h
    rfl
  | succ f ih =>
    intro i b hb h
    have h0 : (resp i).status = 429 := by simpa using h 0 (Nat.succ_pos f)
    have hidx : ∀ k : ℕ, i + 1 + k = i + (k + 1) := fun k => by omega
    have hrec := ih (i + 1) (min (b * 2) 12) (min_le_right _ _)
      (fun k hk => by rw [hidx k]; exact h (k + 1) (by omega))
    simp only [getJsonGo, h0, if_pos, hrec]
    rw [List.range_succ_eq_map]
    simp only [List.map_cons, List.map_map, Function.comp_def, Nat.add_zero, pow_zero,
      mul_one, min_eq_left hb, min_backoff_step, hidx]

/-- When the first non-429 response arrives at attempt `m < fuel`, the fetcher
returns immediately — payload on success, hard error on any other 4xx/5xx —
after exactly `m` sleeps. -/
theorem getJsonGo_first_stop {α : Type} (url : String) (resp : ℕ → HttpResp α) :
    ∀ (m fuel i : ℕ) (b : ℚ), b ≤ 12 → m < fuel →
      (∀ k, k < m → (resp (i + k)).status = 429) →
      (resp (i + m)).status ≠ 429 →
      getJsonGo url resp i fuel b
        = ((if 400 ≤ (resp (i + m)).status ∧ (resp (i + m)).status ≤ 599
            then .httpError (resp (i + m)).status
            else .payload (resp (i + m)).body),
           (List.range m).map
             (fun k => hintWait (resp (i + k)).retryAfter (min (b * 2 ^ k) 12))) := by
  intro m
  induction m with
  | zero =>
    intro fuel i b hb hf h429 hstop
    obtain ⟨f, rfl⟩ : ∃ f, fuel = f + 1 := ⟨fuel - 1, by omega⟩
    rw [Nat.add_zero] at hstop
    simp only [getJsonGo, if_neg hstop]
    rw [Nat.add_zero]
    simp only [List.range_zero, List.map_nil]
    split_ifs <;> rfl
  | succ m ih =>
    intro fuel i b hb hf h429 hstop
    obtain ⟨f, rfl⟩ : ∃ f, fuel = f + 1 := ⟨fuel - 1, by omega⟩
    have h0 : (resp i).status = 429 := by simpa using h429 0 (Nat.succ_pos m)
    have hidx : ∀ k : ℕ, i + 1 + k = i + (k + 1) := fun k => by omega
    have hrec := ih f (i + 1) (min (b * 2) 12) (min_le_right _ _) (by omega)
      (fun k hk => by rw [hidx k]; exact h429 (k + 1) (by omega))
      (by rw [hidx m]; exact hstop)
    simp only [getJsonGo, h0, if_pos, hrec]
    rw [List.range_succ_eq_map]
    simp only [List.map_cons, List.map_map, Function.comp_def, Nat.add_zero, pow_zero,
      mul_one, min_eq_left hb, min_backoff_step, hidx]

/-- C5 counterexample: the upstream provides an explicit retry hint `"1.5"` on
a 429, yet the fetcher sleeps the seeded backoff `0.6` — the hint is honoured
only when it is a digits-only string. -/
theorem c5_counterexample :
    get_json "u" respHint = (.payload (), [6 / 10]) ∧ (6 / 10 : ℚ) ≠ 3 / 2 := by
  constructor
  · rfl
  · norm_num

/-- C5 (amended): retries happen only on a 429 response; the sleep is the
`Retry-After` hint when it is a digits-only string and otherwise the backoff
seeded at 0.6, doubled per attempt and capped at 12; any other 4xx/5xx status
fails immediately with no retry; attempts are capped at 7, and exhausting them
yields the fatal outcome naming the requested resource. -/
theorem c5_fetcher_amended {α : Type} (url : String) (resp : ℕ → HttpResp α) :
    ((∀ k, k < 7 → (resp k).status = 429) →
      get_json url resp
        = (.exhausted url,
           (List.range 7).map
             (fun k => hintWait (resp k).retryAfter (min ((6 / 10) * 2 ^ k) 12)))) ∧
    (∀ m, m < 7 → (∀ k, k < m → (resp k).status = 429) → (resp m).status ≠ 429 →
      get_json url resp
        = ((if 400 ≤ (resp m).status ∧ (resp m).status ≤ 599
            then .httpError (resp m).status else .payload (resp m).body),
           (List.range m).map
             (fun k => hintWait (resp k).retryAfter (min ((6 / 10) * 2 ^ k) 12)))) ∧
    (∀ s b, hintWait (some s) b
        = if s.length ≠ 0 ∧ s.toList.all Char.isDigit then (digitsVal s : ℚ) else b) := by
  refine ⟨?_, ?_, fun s b => rfl⟩
  · intro h
    have := getJsonGo_all429 url resp 7 0 (6 / 10) (by norm_num)
      (fun k hk => by simpa using h k hk)
    simpa using this
  · intro m hm h429 hstop
    have := getJsonGo_first_stop url resp m 7 0 (6 / 10) (by norm_num) hm
      (fun k hk => by simpa using h429 k hk) (by simpa using hstop)
    simpa using this

/-- Witness for C5's amended theorem: with every answer rate-limited and no
hint, all seven attempts are consumed and the fetch ends exhausted, naming the
resource. -/
theorem c5_fetcher_witness :
    get_json "resource" respAll429
      = (.exhausted "resource",
         (List.range 7).map
           (fun k => hintWait (respAll429 k).retryAfter (min ((6 / 10) * 2 ^ k) 12))) :=
  (c5_fetcher_amended "resource" respAll429).1 (fun _ _ => rfl)

/-! ## C7 — matchup resolver -/

/-- Lookup after a dict write: the newest binding wins. -/
theorem lookupD_cons (k v : String) (m : List (String × String)) (x : String) :
    lookupD ((k, v) :: m) x = if x = k then some v else lookupD m x := by
  unfold lookupD
  by_cases hx : x = k
  · subst hx
    simp [List.find?_cons]
  · have hkx : ((k, v).1 == x) = false := by
      simp only [beq_eq_false_iff_ne, ne_eq]
      exact fun h => hx h.symm
    rw [List.find?_cons_of_neg _ (by simp [hkx]), if_neg hx]

/-- Processing one valid pair writes both directions. -/
def pairStep (m : List (String × String)) (p : String × String) :
    List (String × String) :=
  (p.2, p.1) :: (p.1, p.2) :: m

/-- The teams named by a list of pairs. -/
def teamsOfPairs (ps : List (String × String)) : List String :=
  ps.flatMap (fun p => [p.1, p.2])

/-- The matchup fold only sees the valid pairs. -/
theorem fold_matchStep_eq_pairs :
    ∀ (games : List GameDesc) (m : List (String × String)),
      games.foldl matchStep m = (validPairs games).foldl pairStep m := by
  intro games
  induction games with
  | nil => intro m; rfl
  | cons g gs ih =>
    intro m
    cases hh : g.home with
    | none =>
      have h1 : matchStep m g = m := by unfold matchStep; rw [hh]
      have h2 : validPairs (g :: gs) = validPairs gs := by
        simp [validPairs, List.filterMap_cons, hh]
      rw [List.foldl_cons, h1, h2, ih]
    | some h =>
      cases ha : g.away with
      | none =>
        have h1 : matchStep m g = m := by unfold matchStep; rw [hh, ha]
        have h2 : validPairs (g :: gs) = validPairs gs := by
          simp [validPairs, List.filterMap_cons, hh, ha]
        rw [List.foldl_cons, h1, h2, ih]
      | some a =>
        by_cases hne : h ≠ "" ∧ a ≠ ""
        · have h1 : matchStep m g = pairStep m (h, a) := by
            unfold matchStep pairStep updD
            rw [hh, ha]
            dsimp only
            rw [if_pos hne]
          have h2 : validPairs (g :: gs) = (h, a) :: validPairs gs := by
            simp [validPairs, List.filterMap_cons, hh, ha, hne]
          rw [List.foldl_cons, h1, h2, List.foldl_cons, ih]
        · have h1 : matchStep m g = m := by
            unfold matchStep
            rw [hh, ha]
            dsimp only
            rw [if_neg hne]
          have h2 : validPairs (g :: gs) = validPairs gs := by
            simp [validPairs, List.filterMap_cons, hh, ha, hne]
          rw [List.foldl_cons, h1, h2, ih]

/-- The core invariant: folding pairwise-disjoint pairs into a symmetric map
whose domain avoids them keeps the map symmetric, and the final domain is the
old domain plus the pairs' teams. -/
theorem pairs_fold_symm :
    ∀ (ps : List (String × String)) (m : List (String × String)),
      (∀ a b, lookupD m a = some b → lookupD m b = some a) →
      (∀ p, p ∈ ps → lookupD m p.1 = none ∧ lookupD m p.2 = none) →
      pairsDisjoint ps →
      (∀ a b, lookupD (ps.foldl pairStep m) a = some b →
        lookupD (ps.foldl pairStep m) b = some a) ∧
      (∀ t, (∃ o, lookupD (ps.foldl pairStep m) t = some o) ↔
        ((∃ o, lookupD m t = some o) ∨ t ∈ teamsOfPairs ps)) := by
  intro ps
  induction ps with
  | nil =>
    intro m hsymm hdom hdisj
    exact ⟨hsymm, fun t => by simp [teamsOfPairs]⟩
  | cons p ps ih =>
    intro m hsymm hdom hdisj
    obtain ⟨h, a⟩ := p
    obtain ⟨hhead, htail⟩ := List.pairwise_cons.1 hdisj
    have hha : lookupD m h = none ∧ lookupD m a = none := hdom (h, a) (List.mem_cons_self _ _)
    have hsymm' : ∀ x y, lookupD (pairStep m (h, a)) x = some y →
        lookupD (pairStep m (h, a)) y = some x := by
      intro x y hxy
      unfold pairStep at hxy ⊢
      rw [lookupD_cons] at hxy
      by_cases hxa : x = a
      · rw [if_pos hxa] at hxy
        have hy : y = h := (Option.some_injective _ hxy).symm
        subst hy
        subst hxa
        rw [lookupD_cons]
        by_cases hhh : y = x
        · rw [if_pos hhh, hhh]
        · rw [if_neg hhh, lookupD_cons, if_pos rfl]
      · rw [if_neg hxa, lookupD_cons] at hxy
        by_cases hxh : x = h
        · rw [if_pos hxh] at hxy
          have hy : y = a := (Option.some_injective _ hxy).symm
          subst hy
          rw [lookupD_cons, if_pos rfl, hxh]
        · rw [if_neg hxh] at hxy
          have hy := hsymm x y hxy
          have hya : y ≠ a := fun he => by
            rw [he, hha.2] at hy
            exact Option.noConfusion hy
          have hyh : y ≠ h := fun he => by
            rw [he, hha.1] at hy
            exact Option.noConfusion hy
          rw [lookupD_cons, if_neg hya, lookupD_cons, if_neg hyh]
          exact hy
    have hdom' : ∀ q, q ∈ ps →
        lookupD (pairStep m (h, a)) q.1 = none ∧ lookupD (pairStep m (h, a)) q.2 = none := by
      intro q hq
      obtain ⟨hn1, hn2, hn3, hn4⟩ := hhead q hq
      have hm := hdom q (List.mem_cons_of_mem _ hq)
      unfold pairStep
      constructor
      · rw [lookupD_cons, if_neg (fun he => hn3 he.symm),
          lookupD_cons, if_neg (fun he => hn1 he.symm)]
        exact hm.1
      · rw [lookupD_cons, if_neg (fun he => hn4 he.symm),
          lookupD_cons, if_neg (fun he => hn2 he.symm)]
        exact hm.2
    have hrec := ih (pairStep m (h, a)) hsymm' hdom' htail
    rw [List.foldl_cons]
    refine ⟨hrec.1, fun t => ?_⟩
    rw [hrec.2 t]
    have hdm : (∃ o, lookupD (pairStep m (h, a)) t = some o) ↔
        (t = a ∨ t = h ∨ ∃ o, lookupD m t = some o) := by
      unfold pairStep
      rw [lookupD_cons, lookupD_cons]
      by_cases hta : t = a
      · rw [if_pos hta]
        simp [hta]
      · rw [if_neg hta]
        by_cases hth : t = h
        · rw [if_pos hth]
          simp [hta, hth]
        · rw [if_neg hth]
          simp [hta, hth]
    rw [hdm]
    simp only [teamsOfPairs, List.flatMap_cons, List.mem_append, List.mem_cons,
      List.mem_singleton]
    tauto

/-- C7 counterexample: with two games both naming team "A" (A-B then A-C) the
built mapping sends B to A but A to C, so the symmetry
`matchup[a] = b → matchup[b] = a` claimed for every list of game descriptors
fails. -/
theorem c7_counterexample :
    lookupD (get_matchups_today gamesDup) "B" = some "A" ∧
    lookupD (get_matchups_today gamesDup) "A" = some "C" ∧
    ¬ (∀ x y, lookupD (get_matchups_today gamesDup) x = some y →
        lookupD (get_matchups_today gamesDup) y = some x) := by
  refine ⟨rfl, rfl, fun hsym => ?_⟩
  have h1 := hsym "B" "A" rfl
  have h2 : lookupD (get_matchups_today gamesDup) "A" = some "C" := rfl
  rw [h2] at h1
  exact (by decide : ("C" : String) ≠ "B") (Option.some_injective _ h1)

/-- C7 (amended): provided no team appears in two different valid game
descriptors, the built mapping is symmetric and a team has an opponent exactly
when it appears in a valid descriptor; descriptors missing a side (or with an
empty abbreviation) are skipped without failing, and no games at all is a
valid empty result. -/
theorem c7_matchups_amended (games : List GameDesc)
    (hdisj : pairsDisjoint (validPairs games)) :
    (∀ a b, lookupD (get_matchups_today games) a = some b →
      lookupD (get_matchups_today games) b = some a) ∧
    (∀ t, (∃ o, lookupD (get_matchups_today games) t = some o) ↔
      t ∈ teamsOfPairs (validPairs games)) ∧
    (∀ (g : GameDesc) (m : List (String × String)),
      (g.home = Option.none ∨ g.away = Option.none ∨ g.home = some "" ∨ g.away = some "") →
      matchStep m g = m) ∧
    get_matchups_today [] = [] := by
  have hbase := pairs_fold_symm (validPairs games) []
    (fun x y hxy => by simp [lookupD] at hxy)
    (fun p _ => ⟨rfl, rfl⟩) hdisj
  have hfold : get_matchups_today games = (validPairs games).foldl pairStep [] :=
    fold_matchStep_eq_pairs games []
  refine ⟨?_, ?_, ?_, rfl⟩
  · rw [hfold]
    exact hbase.1
  · intro t
    rw [hfold, hbase.2 t]
    simp [lookupD]
  · intro g m hg
    unfold matchStep
    rcases hg with hg | hg | hg | hg
    · rw [hg]
    · rw [hg]
      cases g.home <;> rfl
    · rw [hg]
      cases ha : g.away with
      | none => rfl
      | some a =>
        dsimp only
        rw [if_neg (fun hc => hc.1 rfl)]
    · rw [hg]
      cases hh : g.home with
      | none => rfl
      | some h =>
        dsimp only
        rw [if_neg (fun hc => hc.2 rfl)]

/-- Witness for C7: the one-game schedule NJD-SEA yields a symmetric mapping;
from NJD → SEA the theorem gives SEA → NJD. -/
theorem c7_matchups_witness :
    lookupD (get_matchups_today gamesOne) "SEA" = some "NJD" :=
  (c7_matchups_amended gamesOne
      (by simp [pairsDisjoint, validPairs, gamesOne])).1 "NJD" "SEA" rfl

/-! ## C8 — opponent-strength caching -/

/-- The cache write is visible at its own key. -/
theorem updFn_same (cache : String → Option ℚ) (opp : String) (v : ℚ) :
    updFn cache opp v opp = some v := by
  simp [updFn]

/-- The cache write leaves every other key unchanged. -/
theorem updFn_other (cache : String → Option ℚ) (opp : String) (v : ℚ) {k : String}
    (h : k ≠ opp) : updFn cache opp v k = cache k := by
  simp [updFn, h]

/-- Every row built by the player loop carries the team code and the rounded
opponent-strength value the loop was invoked with. -/
theorem playerLoop_fields (glog : ℤ → Except Unit GameLogData) (n : ℕ) (team opp : String)
    (boost oppSa : ℚ) (date : String) :
    ∀ (sk : List (ℤ × String × String)) (rows : List Row),
      playerLoop glog n team opp boost oppSa date sk = .ok rows →
      ∀ r ∈ rows, r.Team = team ∧ r.OppSA = pyRoundQ 4 oppSa := by
  intro sk
  induction sk with
  | nil =>
    intro rows h r hr
    simp only [playerLoop, Except.ok.injEq] at h
    subst h
    simp at hr
  | cons e rest ih =>
    obtain ⟨pid, name, pos⟩ := e
    intro rows h r hr
    simp only [playerLoop] at h
    split at h
    · exact absurd h (by simp)
    · split at h
      · exact ih rows h r hr
      · split at h
        · exact absurd h (by simp)
        · rename_i rs hrs
          rw [Except.ok.injEq] at h
          subst h
          rcases List.mem_cons.1 hr with rfl | hr'
          · exact ⟨rfl, rfl⟩
          · exact ih rs hrs r hr'

/-- C8: within a run the club-stats endpoint is fetched at most once per
distinct opponent code (the fetch log is duplicate-free and already-cached
opponents are never re-fetched), and every emitted row's stored opponent
strength is the value the deterministic endpoint gives for its team's
opponent — so every later lookup sees the identical cached value. -/
theorem c8_cache (u : Upstream) (n : ℕ) (baseline : ℚ) (date : String)
    (matchups : List (String × String)) :
    ∀ (teams : List String) (cache : String → Option ℚ),
      (∀ o v, cache o = some v →
        ∃ d, u.clubStats o = .ok d ∧ v = (club_shots_against_per_game d).getD baseline) →
      ∀ rows fetched,
        teamLoop u n baseline date matchups teams cache = .ok (rows, fetched) →
        fetched.Nodup ∧
        (∀ o, (cache o).isSome → o ∉ fetched) ∧
        (∀ r ∈ rows, ∃ o d, lookupD matchups r.Team = some o ∧ u.clubStats o = .ok d ∧
          r.OppSA = pyRoundQ 4 ((club_shots_against_per_game d).getD baseline)) := by
  intro teams
  induction teams with
  | nil =>
    intro cache hc rows fetched h
    simp only [teamLoop, Except.ok.injEq, Prod.mk.injEq] at h
    obtain ⟨rfl, rfl⟩ := h
    exact ⟨List.nodup_nil, by simp, by simp⟩
  | cons t ts ih =>
    intro cache hc rows fetched h
    simp only [teamLoop] at h
    split at h
    · exact ih cache hc rows fetched h
    · rename_i opp hopp
      split at h
      · exact ih cache hc rows fetched h
      · rename_i hoppne
        split at h
        · exact absurd h (by simp)
        · rename_i cache' f1 hpair
          split at h
          · exact absurd h (by simp)
          · rename_i rd hrd
            split at h
            · exact absurd h (by simp)
            · rename_i rows1 hrows1
              split at h
              · exact absurd h (by simp)
              · rename_i rest f2 hrest
                rw [Except.ok.injEq, Prod.mk.injEq] at h
                obtain ⟨rfl, rfl⟩ := h
                -- analyse the cache-resolution step
                have hstep : (cache' = cache ∧ f1 = [] ∧ ∃ v, cache opp = some v) ∨
                    (cache opp = none ∧ f1 = [opp] ∧
                     ∃ cs, u.clubStats opp = .ok cs ∧
                       cache' = updFn cache opp
                         ((club_shots_against_per_game cs).getD baseline)) := by
                  unfold resolveCache at hpair
                  split at hpair
                  · rename_i v hv
                    rw [Except.ok.injEq, Prod.mk.injEq] at hpair
                    exact Or.inl ⟨hpair.1.symm, hpair.2.symm, v, hv⟩
                  · rename_i hnone
                    split at hpair
                    · exact absurd hpair (by simp)
                    · rename_i cs hcs
                      rw [Except.ok.injEq, Prod.mk.injEq] at hpair
                      exact Or.inr ⟨hnone, hpair.2.symm, cs, hcs, hpair.1.symm⟩
                -- the invariant holds for the updated cache
                have hc' : ∀ o v, cache' o = some v →
                    ∃ d, u.clubStats o = .ok d ∧
                      v = (club_shots_against_per_game d).getD baseline := by
                  rcases hstep with ⟨rfl, _, _⟩ | ⟨hnone, _, cs, hcs, rfl⟩
                  · exact hc
                  · intro o v hov
                    by_cases ho : o = opp
                    · subst ho
                      rw [updFn_same] at hov
                      exact ⟨cs, hcs, (Option.some_injective _ hov).symm⟩
                    · rw [updFn_other _ _ _ ho] at hov
                      exact hc o v hov
                have hih := ih cache' hc' rest f2 hrest
                -- the opponent strength used for this team is endpoint-determined
                have hused : ∃ d, u.clubStats opp = .ok d ∧
                    (cache' opp).getD baseline
                      = (club_shots_against_per_game d).getD baseline := by
                  rcases hstep with ⟨rfl, _, v, hv⟩ | ⟨_, _, cs, hcs, rfl⟩
                  · obtain ⟨d, hd, hvd⟩ := hc opp v hv
                    exact ⟨d, hd, by rw [hv, Option.getD_some, hvd]⟩
                  · exact ⟨cs, hcs, by rw [updFn_same, Option.getD_some]⟩
                refine ⟨?_, ?_, ?_⟩
                · rcases hstep with ⟨rfl, rfl, _⟩ | ⟨hnone, rfl, cs, hcs, hcache⟩
                  · simpa using hih.1
                  · have hlater : opp ∉ f2 := by
                      apply hih.2.1 opp
                      rw [hcache, updFn_same]
                      rfl
                    simp only [List.singleton_append, List.nodup_cons]
                    exact ⟨hlater, hih.1⟩
                · intro o ho
                  rcases hstep with ⟨rfl, rfl, _⟩ | ⟨hnone, rfl, cs, hcs, hcache⟩
                  · simpa using hih.2.1 o ho
                  · have hne : o ≠ opp := by
                      intro he
                      subst he
                      rw [hnone] at ho
                      simp at ho
                    have hnotf2 : o ∉ f2 := by
                      apply hih.2.1 o
                      rw [hcache, updFn_other _ _ _ hne]
                      exact ho
                    simp only [List.singleton_append, List.mem_cons]
                    rintro (rfl | hmem)
                    · exact hne rfl
                    · exact hnotf2 hmem
                · intro r hr
                  rcases List.mem_append.1 hr with hr1 | hr2
                  · obtain ⟨hteam, hsa⟩ := playerLoop_fields u.gameLog n t opp
                      (boostOf ((cache' opp).getD baseline) baseline)
                      ((cache' opp).getD baseline) date (roster_skaters rd) rows1 hrows1 r hr1
                    obtain ⟨d, hd, hval⟩ := hused
                    exact ⟨opp, d, by rw [hteam]; exact hopp, hd, by rw [hsa, hval]⟩
                  · exact hih.2.2 r hr2

/-- Witness for C8: two teams sharing opponent "C", starting from an empty
cache — the club-stats endpoint is fetched exactly once, for "C", and the
fetch log is duplicate-free. -/
theorem c8_cache_witness :
    teamLoop uShared 1 28 "d" [("A", "C"), ("B", "C")] ["A", "B"] (fun _ => none)
      = .ok ([], ["C"]) ∧ (["C"] : List String).Nodup :=
  ⟨rfl, (c8_cache uShared 1 28 "d" [("A", "C"), ("B", "C")] ["A", "B"] (fun _ => none)
    (fun o v hv => by simp at hv) [] ["C"] rfl).1⟩

/-! ## C9 — failure propagation -/

/-- When every game-log fetch succeeds, the player loop never fails, whatever
the payloads contain (insufficient histories are skipped, not fatal). -/
theorem playerLoop_allOk (glog : ℤ → Except Unit GameLogData) (n : ℕ) (team opp : String)
    (boost oppSa : ℚ) (date : String) (hok : ∀ p, ∃ g, glog p = .ok g) :
    ∀ sk, ∃ rows, playerLoop glog n team opp boost oppSa date sk = .ok rows := by
  intro sk
  induction sk with
  | nil => exact ⟨[], rfl⟩
  | cons e rest ih =>
    obtain ⟨pid, name, pos⟩ := e
    obtain ⟨g, hg⟩ := hok pid
    obtain ⟨rs, hrs⟩ := ih
    cases hl : lastN_shots_from_game_log g n with
    | none => exact ⟨rs, by simp only [playerLoop, hg, hl, hrs]⟩
    | some shots =>
      exact ⟨mkRow name pid team opp pos n shots boost oppSa date :: rs,
        by simp only [playerLoop, hg, hl, hrs]⟩

/-- When every upstream fetch succeeds, the team loop never fails. -/
theorem teamLoop_allOk (u : Upstream) (n : ℕ) (baseline : ℚ) (date : String)
    (matchups : List (String × String)) (hall : allOk u) :
    ∀ teams cache, ∃ res, teamLoop u n baseline date matchups teams cache = .ok res := by
  intro teams
  induction teams with
  | nil => intro cache; exact ⟨([], []), rfl⟩
  | cons t ts ih =>
    intro cache
    obtain ⟨_, hclub, hroster, hlog⟩ := hall
    cases hlk : lookupD matchups t with
    | none =>
      obtain ⟨res, hres⟩ := ih cache
      exact ⟨res, by simp only [teamLoop, hlk, hres]⟩
    | some opp =>
      by_cases hne : opp = ""
      · obtain ⟨res, hres⟩ := ih cache
        exact ⟨res, by simp only [teamLoop, hlk, if_pos hne, hres]⟩
      · have hresolve : ∃ c' f1, resolveCache u baseline cache opp = .ok (c', f1) := by
          unfold resolveCache
          cases hc : cache opp with
          | some v => exact ⟨cache, [], rfl⟩
          | none =>
            obtain ⟨cs, hcs⟩ := hclub opp
            exact ⟨updFn cache opp ((club_shots_against_per_game cs).getD baseline), [opp],
              by simp only [hcs]⟩
        obtain ⟨c', f1, hres⟩ := hresolve
        obtain ⟨rd, hrd⟩ := hroster t
        obtain ⟨rows1, hrows1⟩ := playerLoop_allOk u.gameLog n t opp
          (boostOf ((c' opp).getD baseline) baseline) ((c' opp).getD baseline) date hlog
          (roster_skaters rd)
        obtain ⟨⟨rest, f2⟩, hrest⟩ := ih c'
        exact ⟨(rows1 ++ rest, f1 ++ f2),
          by simp only [teamLoop, hlk, if_neg hne, hres, hrd, hrows1, hrest]⟩

/-- C9: when no fetch fails, the run completes successfully no matter how
malformed, insufficient or unavailable the decoded payloads are (entity- and
record-scoped failures are absorbed); in the concrete two-team run `uGood`
the insufficient player Q is dropped while sibling P is emitted; and in
`uBad`, identical except that Q's game-log fetch exhausts its retries after
team O and player P were already processed, the whole run terminates with the
fatal outcome and delivers nothing to the sink. -/
theorem c9_propagation :
    (∀ u n baseline date, allOk u → ∃ rows, mainRun u n baseline date = .ok rows) ∧
    (∃ r, mainRun uGood 2 28 "d" = .ok [r]) ∧
    mainRun uBad 2 28 "d" = .error () := by
  refine ⟨?_, ?_, ?_⟩
  · intro u n baseline date hall
    obtain ⟨s, hs⟩ := hall.1
    by_cases hemp : (get_matchups_today s).isEmpty
    · exact ⟨[], by simp only [mainRun, hs, if_pos hemp]⟩
    · obtain ⟨⟨rows, fetched⟩, hloop⟩ := teamLoop_allOk u n baseline date
        (get_matchups_today s) hall
        (sortStr (((get_matchups_today s).map (fun p => p.1)).dedup)) (fun _ => none)
      exact ⟨outputRows rows, by simp only [mainRun, hs, if_neg hemp, hloop]⟩
  · exact ⟨_, rfl⟩
  · rfl

/-- Witness for C9: the all-ok upstream `uGood` satisfies `allOk`, so the run
completes successfully. -/
theorem c9_propagation_witness :
    ∃ rows, mainRun uGood 2 28 "d" = .ok rows := by
  apply c9_propagation.1
  refine ⟨⟨_, rfl⟩, fun t => ⟨_, rfl⟩, fun t => ?_, fun p => ?_⟩
  · by_cases h : t = "T"
    · exact ⟨⟨[(.int 1, "P"), (.int 2, "Q")], []⟩, by simp [uGood, h]⟩
    · exact ⟨⟨[], []⟩, by simp [uGood, h]⟩
  · by_cases h : p = 1
    · exact ⟨⟨some [⟨.int 2, Option.none⟩, ⟨.int 3, Option.none⟩]⟩, by simp [uGood, h]⟩
    · exact ⟨⟨some [⟨.int 1, Option.none⟩]⟩, by simp [uGood, h]⟩

/-! ## C10 — booleans pass the integer check in the extractor -/

/-- C10: a boolean in the shots field passes the `isinstance(s, int)` check
(Python's `bool` is a subclass of `int`), so such a game contributes `1`/`0`
to the window instead of being skipped. -/
theorem c10_bool_shots :
    ∀ (b : Bool) (ss : Option PyVal) (rest : List GameEntry),
      extractShot ⟨.bool b, ss⟩ = some (if b then 1 else 0) ∧
      validShots (⟨.bool b, ss⟩ :: rest) = (if b then 1 else 0) :: validShots rest := by
  intro b ss rest
  have h : extractShot ⟨.bool b, ss⟩ = some (if b then 1 else 0) := by
    cases ss <;> simp [extractShot, pyIsInt, pyToInt]
  exact ⟨h, by simp [validShots, List.filterMap_cons, h]⟩

end NHLShots
